import Mathlib

/-!
Verification of the TimedCache expiring in-memory cache (timedcache.go).

The cache stores, under string keys, items carrying a content value, an
absolute expiration instant, a refreshing flag and a refresh duration.
We embed the Go code shallowly:

* instants and durations (`time.Time`, `time.Duration`) become `Int`;
  `time.Now().UTC()` becomes an explicit `now : Int` parameter taken by
  every operation that reads the clock;
* the Go map `map[string]cacheItem` becomes `String → Option (cacheItem V)`,
  with `interface{}` content generalised to a type parameter `V`;
* `Get`, which in Go both returns `(interface{}, error)` and may write the
  refreshed item back into the map, returns the pair of its result and the
  table after the call; likewise `KeyExistsS` returns its boolean together
  with the (unchanged) table, mirroring that the Go function performs no
  assignment to `tc.items`.
-/

/-- One stored item, field for field the Go struct `cacheItem`:
`Content` the stored object, `ExpiresAt` the instant after which the sweep
removes it, `KeepRefreshing` whether a read extends the expiration, and
`RefreshBy` the duration added on each refresh. -/
structure cacheItem (V : Type) where
  Content : V
  ExpiresAt : Int
  KeepRefreshing : Bool
  RefreshBy : Int
  deriving DecidableEq, Repr

/-- The cache table: the Go map `map[string]cacheItem` as a lookup function. -/
def Table (V : Type) : Type := String → Option (cacheItem V)

/-- Point update of the table: Go map assignment `tc.items[key] = v`
(for `v = some item`) and `delete(tc.items, key)` (for `v = none`). -/
def Table.update {V : Type} (t : Table V) (key : String) (v : Option (cacheItem V)) :
    Table V :=
  fun k => if k = key then v else t k

/-- The empty table a fresh cache starts from (`make(map[string]cacheItem)`). -/
def Table.empty (V : Type) : Table V := fun _ => none

/-- `Put` (timedcache.go lines 67-75): stores a non-refreshing item whose
`ExpiresAt` is `now + duration`.  The Go composite literal leaves `RefreshBy`
at its zero value, hence `RefreshBy := 0`. -/
def Put {V : Type} (t : Table V) (key : String) (content : V) (duration : Int)
    (now : Int) : Table V :=
  t.update key (some {
    Content := content,
    ExpiresAt := now + duration,
    KeepRefreshing := false,
    RefreshBy := 0 })

/-- `PutRefreshing` (lines 79-88): stores a refreshing item whose `ExpiresAt`
is `now + duration` and whose `RefreshBy` records the original duration. -/
def PutRefreshing {V : Type} (t : Table V) (key : String) (content : V)
    (duration : Int) (now : Int) : Table V :=
  t.update key (some {
    Content := content,
    ExpiresAt := now + duration,
    KeepRefreshing := true,
    RefreshBy := duration })

/-- `Delete` (lines 92-96): removes the item at `key` from the map. -/
def Delete {V : Type} (t : Table V) (key : String) : Table V :=
  t.update key none

/-- `Get` (lines 101-113): looks `key` up; when found and refreshing, first
sets the item's `ExpiresAt` to `now + RefreshBy` and writes the item back,
then returns its content; when absent, returns the error `"Item not found"`.
The second component is the table after the call. -/
def Get {V : Type} (t : Table V) (key : String) (now : Int) :
    Except String V × Table V :=
  match t key with
  | some theItem =>
    if theItem.KeepRefreshing then
      let theItem' : cacheItem V := { theItem with ExpiresAt := now + theItem.RefreshBy }
      (Except.ok theItem'.Content, t.update key (some theItem'))
    else
      (Except.ok theItem.Content, t)
  | none => (Except.error "Item not found", t)

/-- `KeyExists` (lines 117-125) in state-passing form: the boolean it returns
together with the table after the call.  The Go body only reads
`tc.items[key]`; both its return paths leave the map as it was. -/
def KeyExistsS {V : Type} (t : Table V) (key : String) : Bool × Table V :=
  match t key with
  | some _ => (true, t)
  | none => (false, t)

/-- The boolean `KeyExists` returns. -/
def KeyExists {V : Type} (t : Table V) (key : String) : Bool :=
  (KeyExistsS t key).fst

/-- `RemoveExpired` (lines 139-148): takes one snapshot `now` of the clock
and deletes every item whose `ExpiresAt` lies strictly before it
(`curItem.ExpiresAt.Before(timeNow)`); each key's fate depends only on its
own item and the single snapshot, so the range-with-delete loop is this
pointwise filter. -/
def RemoveExpired {V : Type} (t : Table V) (now : Int) : Table V :=
  fun key =>
    match t key with
    | some curItem => if curItem.ExpiresAt < now then none else some curItem
    | none => none

/-- The read-side and sweep operations a stored item can be exposed to
(claim C6 quantifies over sequences of these). -/
inductive CacheOp where
  | get (key : String) (now : Int)
  | keyExists (key : String)
  | del (key : String)
  | removeExpired (now : Int)
  deriving DecidableEq, Repr

/-- The table after running one operation. -/
def applyOp {V : Type} (t : Table V) : CacheOp → Table V
  | CacheOp.get key now => (Get t key now).snd
  | CacheOp.keyExists key => (KeyExistsS t key).snd
  | CacheOp.del key => Delete t key
  | CacheOp.removeExpired now => RemoveExpired t now

/-- The table after running a sequence of operations in order. -/
def applyOps {V : Type} (t : Table V) (ops : List CacheOp) : Table V :=
  ops.foldl applyOp t

/-- `b` agrees with `a` on every field other than `ExpiresAt`. -/
def sameMeta {V : Type} (a b : cacheItem V) : Prop :=
  b.Content = a.Content ∧ b.KeepRefreshing = a.KeepRefreshing ∧ b.RefreshBy = a.RefreshBy

/-! Concrete items and tables used by the witnesses below. -/

/-- A refreshing item whose deadline already lies in the past. -/
def e1 : cacheItem Nat :=
  { Content := 7, ExpiresAt := -3, KeepRefreshing := true, RefreshBy := 5 }

/-- A non-refreshing item. -/
def e2 : cacheItem Nat :=
  { Content := 42, ExpiresAt := 6, KeepRefreshing := false, RefreshBy := 0 }

/-- A one-item table holding the refreshing item `e1` at `"k"`. -/
def t1 : Table Nat := (Table.empty Nat).update "k" (some e1)

/-- A one-item table holding the non-refreshing item `e2` at `"k"`. -/
def t2 : Table Nat := (Table.empty Nat).update "k" (some e2)

/-- C1: for a key present with `KeepRefreshing = true`, `Get` returns the
stored content successfully, writes the item back with `ExpiresAt` set to
`now + RefreshBy` and every other field as it was, and leaves every other
key's entry untouched. -/
theorem Get_refreshing_extends {V : Type} (t : Table V) (key : String) (now : Int)
    (e : cacheItem V) (hk : t key = some e) (hr : e.KeepRefreshing = true) :
    (Get t key now).fst = Except.ok e.Content ∧
    (Get t key now).snd key = some { e with ExpiresAt := now + e.RefreshBy } ∧
    ∀ k, k ≠ key → (Get t key now).snd k = t k := by
  refine ⟨?_, ?_, ?_⟩
  · simp [Get, hk, hr]
  · simp [Get, hk, hr, Table.update]
  · intro k hkk
    simp [Get, hk, hr, Table.update, hkk]

/-- Witness for C1 at the concrete table `t1` and instant `10`. -/
theorem Get_refreshing_extends_w :
    t1 "k" = some e1 ∧ e1.KeepRefreshing = true ∧
    ((Get t1 "k" 10).fst = Except.ok e1.Content ∧
     (Get t1 "k" 10).snd "k" = some { e1 with ExpiresAt := 10 + e1.RefreshBy } ∧
     ∀ k, k ≠ "k" → (Get t1 "k" 10).snd k = t1 k) :=
  ⟨rfl, rfl, Get_refreshing_extends t1 "k" 10 e1 rfl rfl⟩

/-- C2: `Put` followed immediately by `Get` on the same key returns the
stored value successfully, whatever the duration and whatever the two
clock readings. -/
theorem Put_then_Get_roundtrip {V : Type} (t : Table V) (key : String) (v : V)
    (duration now now' : Int) :
    (Get (Put t key v duration now) key now').fst = Except.ok v := by
  simp [Put, Get, Table.update]

/-- C7: for a key present with `KeepRefreshing = false`, `Get` returns the
stored content successfully and returns the table exactly as it was, so no
number of repeated calls changes any entry. -/
theorem Get_nonrefreshing_frame {V : Type} (t : Table V) (key : String) (now : Int)
    (e : cacheItem V) (hk : t key = some e) (hr : e.KeepRefreshing = false) :
    (Get t key now).fst = Except.ok e.Content ∧ (Get t key now).snd = t := by
  simp [Get, hk, hr]

/-- Witness for C7 at the concrete table `t2` and instant `10`. -/
theorem Get_nonrefreshing_frame_w :
    t2 "k" = some e2 ∧ e2.KeepRefreshing = false ∧
    ((Get t2 "k" 10).fst = Except.ok e2.Content ∧ (Get t2 "k" 10).snd = t2) :=
  ⟨rfl, rfl, Get_nonrefreshing_frame t2 "k" 10 e2 rfl rfl⟩

/-- C9: `Delete` empties the deleted key, leaves every other key unchanged,
is the identity when the key is absent, and is idempotent. -/
theorem Delete_spec {V : Type} (t : Table V) (key : String) :
    Delete t key key = none ∧
    (∀ k, k ≠ key → Delete t key k = t k) ∧
    (t key = none → Delete t key = t) ∧
    Delete (Delete t key) key = Delete t key := by
  refine ⟨?_, ?_, ?_, ?_⟩
  · simp [Delete, Table.update]
  · intro k hkk
    simp [Delete, Table.update, hkk]
  · intro habs
    funext k
    by_cases hkk : k = key
    · simp [Delete, Table.update, hkk, habs]
    · simp [Delete, Table.update, hkk]
  · funext k
    by_cases hkk : k = key <;> simp [Delete, Table.update, hkk]

/-- C10: `KeyExists` performs no write: the table after the call is the very
table before it (in particular no refreshing entry has its deadline
extended, unlike under `Get`), and the boolean it returns is exactly
presence of the key. -/
theorem KeyExists_frame {V : Type} (t : Table V) (key : String) :
    (KeyExistsS t key).snd = t ∧
    (KeyExists t key = true ↔ (t key).isSome) := by
  cases h : t key <;> simp [KeyExistsS, KeyExists, h]

/-- C3: with one snapshot `now` of the clock, `RemoveExpired` deletes a
present item exactly when its `ExpiresAt` lies strictly before the snapshot,
and keeps it with every field unchanged when `ExpiresAt` is at or after it. -/
theorem RemoveExpired_spec {V : Type} (t : Table V) (now : Int) (key : String)
    (e : cacheItem V) (hk : t key = some e) :
    (RemoveExpired t now key = none ↔ e.ExpiresAt < now) ∧
    (now ≤ e.ExpiresAt → RemoveExpired t now key = some e) := by
  constructor
  · by_cases hlt : e.ExpiresAt < now <;> simp [RemoveExpired, hk, hlt]
  · intro h
    simp [RemoveExpired, hk, not_lt.mpr h]

/-- Witness for C3 at the concrete table `t1` and snapshot `0`. -/
theorem RemoveExpired_spec_w :
    t1 "k" = some e1 ∧
    ((RemoveExpired t1 0 "k" = none ↔ e1.ExpiresAt < 0) ∧
     (0 ≤ e1.ExpiresAt → RemoveExpired t1 0 "k" = some e1)) :=
  ⟨rfl, RemoveExpired_spec t1 0 "k" e1 rfl⟩

/-- A refreshing item with `RefreshBy = 0`, used against claim C5. -/
def e3 : cacheItem Nat :=
  { Content := 1, ExpiresAt := -1, KeepRefreshing := true, RefreshBy := 0 }

/-- A one-item table holding `e3` at `"k"`. -/
def t3 : Table Nat := (Table.empty Nat).update "k" (some e3)

/-- C5 counterexample: a refreshing item stored with `RefreshBy = 0` (as
`PutRefreshing` records for a zero duration) and `ExpiresAt = -1`, read at
instant `0`: the item's deadline was in the past, yet the `Get` re-sets
`ExpiresAt` to `0 + 0 = 0`, which is not in the future of the instant `0`
of the read — so the read did not re-extend `expiresAt` into the future. -/
theorem Get_reextends_cex :
    t3 "k" = some e3 ∧ e3.KeepRefreshing = true ∧ e3.ExpiresAt < 0 ∧
    (Get t3 "k" 0).snd "k" =
      some { Content := 1, ExpiresAt := 0, KeepRefreshing := true, RefreshBy := 0 } ∧
    ¬ ((0 : Int) < 0) :=
  ⟨rfl, rfl, by decide, rfl, by decide⟩

/-- C5 (amended): neither `Get` nor `KeyExists` compares `ExpiresAt` with the
clock: a present key is returned successfully and reported as existing even
when its deadline has passed, and a refreshing item has its `ExpiresAt`
re-set to `now + RefreshBy`, which lies in the future exactly when
`RefreshBy` is positive. -/
theorem Get_KeyExists_ignore_expiry {V : Type} (t : Table V) (key : String)
    (now : Int) (e : cacheItem V) (hk : t key = some e)
    (hpast : e.ExpiresAt < now) :
    (Get t key now).fst = Except.ok e.Content ∧
    KeyExists t key = true ∧
    (e.KeepRefreshing = true →
      (Get t key now).snd key = some { e with ExpiresAt := now + e.RefreshBy } ∧
      (0 < e.RefreshBy → now < now + e.RefreshBy)) := by
  refine ⟨?_, ?_, ?_⟩
  · cases hr : e.KeepRefreshing <;> simp [Get, hk, hr]
  · simp [KeyExists, KeyExistsS, hk]
  · intro hr
    refine ⟨?_, ?_⟩
    · simp [Get, hk, hr, Table.update]
    · omega

/-- Witness for the amended C5 at the concrete table `t3` and instant `2`. -/
theorem Get_KeyExists_ignore_expiry_w :
    t3 "k" = some e3 ∧ e3.ExpiresAt < 2 ∧
    ((Get t3 "k" 2).fst = Except.ok e3.Content ∧
     KeyExists t3 "k" = true ∧
     (e3.KeepRefreshing = true →
       (Get t3 "k" 2).snd "k" = some { e3 with ExpiresAt := 2 + e3.RefreshBy } ∧
       (0 < e3.RefreshBy → (2 : Int) < 2 + e3.RefreshBy))) :=
  ⟨rfl, by decide, Get_KeyExists_ignore_expiry t3 "k" 2 e3 rfl (by decide)⟩

/-- C8: `Get` signals the `"Item not found"` error exactly when the key is
absent at lookup time, and the mutating operations place or remove their
entry for every input, any duration included (negative and zero ones too). -/
theorem Get_error_iff_absent {V : Type} (t : Table V) (key : String) (v : V)
    (duration now : Int) :
    ((Get t key now).fst = Except.error "Item not found" ↔ t key = none) ∧
    Put t key v duration now key =
      some { Content := v, ExpiresAt := now + duration,
             KeepRefreshing := false, RefreshBy := 0 } ∧
    PutRefreshing t key v duration now key =
      some { Content := v, ExpiresAt := now + duration,
             KeepRefreshing := true, RefreshBy := duration } ∧
    Delete t key key = none := by
  refine ⟨?_, ?_, ?_, ?_⟩
  · cases hk : t key with
    | some e => cases hr : e.KeepRefreshing <;> simp [Get, hk, hr]
    | none => simp [Get, hk]
  · simp [Put, Table.update]
  · simp [PutRefreshing, Table.update]
  · simp [Delete, Table.update]

/-- `sameMeta` is reflexive. -/
theorem sameMeta_refl {V : Type} (a : cacheItem V) : sameMeta a a :=
  ⟨rfl, rfl, rfl⟩

/-- `sameMeta` chains along successive tables. -/
theorem sameMeta_trans {V : Type} {a b c : cacheItem V}
    (h1 : sameMeta a b) (h2 : sameMeta b c) : sameMeta a c := by
  obtain ⟨x1, y1, z1⟩ := h1
  obtain ⟨x2, y2, z2⟩ := h2
  exact ⟨x2.trans x1, y2.trans y1, z2.trans z1⟩

/-- One step of the C6 invariant: after any single `get`, `keyExists`,
`removeExpired`, or `del` of another key, an item found at `key` descends
from an item present before the step, with `Content`, `KeepRefreshing`
and `RefreshBy` untouched. -/
theorem applyOp_lookup_meta {V : Type} (t : Table V) (op : CacheOp) (key : String)
    (hop : op ≠ CacheOp.del key) (e' : cacheItem V)
    (h : applyOp t op key = some e') :
    ∃ e, t key = some e ∧ sameMeta e e' := by
  cases op with
  | get k n =>
    cases htk : t k with
    | none =>
      simp only [applyOp, Get, htk] at h
      exact ⟨e', h, sameMeta_refl e'⟩
    | some it =>
      cases hr : it.KeepRefreshing with
      | false =>
        simp [applyOp, Get, htk, hr] at h
        exact ⟨e', h, sameMeta_refl e'⟩
      | true =>
        simp [applyOp, Get, htk, hr, Table.update] at h
        by_cases hkk : key = k
        · rw [if_pos hkk] at h
          have h2 := Option.some.inj h
          refine ⟨it, by rw [hkk]; exact htk, ?_⟩
          rw [← h2]
          exact ⟨rfl, hr.symm, rfl⟩
        · rw [if_neg hkk] at h
          exact ⟨e', h, sameMeta_refl e'⟩
  | keyExists k =>
    have hsnd : (KeyExistsS t k).snd = t := by
      cases htk : t k <;> simp [KeyExistsS, htk]
    simp only [applyOp, hsnd] at h
    exact ⟨e', h, sameMeta_refl e'⟩
  | del k =>
    have hkk : key ≠ k := fun hh => hop (by rw [hh])
    simp only [applyOp, Delete, Table.update] at h
    rw [if_neg hkk] at h
    exact ⟨e', h, sameMeta_refl e'⟩
  | removeExpired n =>
    cases htk : t key with
    | none =>
      simp [applyOp, RemoveExpired, htk] at h
    | some it =>
      by_cases hlt : it.ExpiresAt < n
      · simp [applyOp, RemoveExpired, htk, hlt] at h
      · have h2 : applyOp t (CacheOp.removeExpired n) key = some it := by
          simp [applyOp, RemoveExpired, htk, hlt]
        have h3 : it = e' := Option.some.inj (h2.symm.trans h)
        refine ⟨it, rfl, ?_⟩
        rw [← h3]
        exact sameMeta_refl it

/-- The C6 invariant folded over a whole sequence of operations. -/
theorem applyOps_lookup_meta {V : Type} (key : String) (ops : List CacheOp) :
    ∀ t : Table V, (∀ op ∈ ops, op ≠ CacheOp.del key) →
      ∀ e', applyOps t ops key = some e' →
        ∃ e, t key = some e ∧ sameMeta e e' := by
  induction ops with
  | nil =>
    intro t _ e' h
    exact ⟨e', h, sameMeta_refl e'⟩
  | cons op ops ih =>
    intro t hops e' h
    have h' : applyOps (applyOp t op) ops key = some e' := by
      simpa [applyOps] using h
    obtain ⟨e1, h1, m1⟩ :=
      ih (applyOp t op) (fun o ho => hops o (List.mem_cons_of_mem _ ho)) e' h'
    obtain ⟨e0, h0, m0⟩ :=
      applyOp_lookup_meta t op key (hops op (List.mem_cons_self _ _)) e1 h1
    exact ⟨e0, h0, sameMeta_trans m0 m1⟩

/-- C6: an item inserted by `PutRefreshing` keeps its content, its
refreshing flag and its `RefreshBy` duration across any sequence of reads,
existence checks, deletions of other keys and sweeps, for as long as it is
still found in the table: only `ExpiresAt` ever changes. -/
theorem PutRefreshing_meta_invariant {V : Type} (t : Table V) (key : String)
    (v : V) (duration now : Int) (ops : List CacheOp)
    (hops : ∀ op ∈ ops, op ≠ CacheOp.del key) (e' : cacheItem V)
    (h : applyOps (PutRefreshing t key v duration now) ops key = some e') :
    e'.Content = v ∧ e'.KeepRefreshing = true ∧ e'.RefreshBy = duration := by
  obtain ⟨e, he, hm⟩ :=
    applyOps_lookup_meta key ops (PutRefreshing t key v duration now) hops e' h
  have he2 : e = { Content := v, ExpiresAt := now + duration,
                   KeepRefreshing := true, RefreshBy := duration } := by
    have : some ({ Content := v, ExpiresAt := now + duration,
                   KeepRefreshing := true, RefreshBy := duration } : cacheItem V) = some e := by
      simpa [PutRefreshing, Table.update] using he
    exact (Option.some.inj this).symm
  obtain ⟨hc, hk2, hr2⟩ := hm
  rw [he2] at hc hk2 hr2
  exact ⟨hc, hk2, hr2⟩

/-- A concrete sequence of operations exercising every C6 step: a refreshing
read of the key itself, an existence check, a deletion of another key and a
sweep. -/
def ops1 : List CacheOp :=
  [CacheOp.get "k" 5, CacheOp.keyExists "k", CacheOp.del "j", CacheOp.removeExpired 3]

/-- Witness for C6: the item `PutRefreshing` stores at `"k"` (content `7`,
duration `4`, inserted at instant `0`) is still refreshing with
`RefreshBy = 4` after `ops1`, its `ExpiresAt` alone having moved to `9`. -/
theorem PutRefreshing_meta_invariant_w :
    (∀ op ∈ ops1, op ≠ CacheOp.del "k") ∧
    applyOps (PutRefreshing (Table.empty Nat) "k" 7 4 0) ops1 "k" =
      some { Content := 7, ExpiresAt := 9, KeepRefreshing := true, RefreshBy := 4 } ∧
    (({ Content := 7, ExpiresAt := 9, KeepRefreshing := true,
        RefreshBy := 4 } : cacheItem Nat).Content = 7 ∧
     ({ Content := 7, ExpiresAt := 9, KeepRefreshing := true,
        RefreshBy := 4 } : cacheItem Nat).KeepRefreshing = true ∧
     ({ Content := 7, ExpiresAt := 9, KeepRefreshing := true,
        RefreshBy := 4 } : cacheItem Nat).RefreshBy = 4) :=
  ⟨by decide, rfl,
    PutRefreshing_meta_invariant (Table.empty Nat) "k" 7 4 0 ops1 (by decide) _ rfl⟩
